import Mathlib

/-!
Verification development for the `nosig` utility (`nosig.c`).

The embedding targets the realtime-enabled build (`USE_RT = 1`, i.e. a
Linux/glibc-style platform): signal numbers are integers, the signal
catalog carries the Linux/x86_64 values, and `get_sigmax()` returns
`SIGRTMAX`.  Strings are modelled as `List Char` (C strings without the
terminating NUL).  Kernel state (disposition table, block mask) is
modelled explicitly; the runtime-dependent pieces (the realtime bounds,
the contents of `sigfillset`, and which signals `sigaction` accepts) are
parameters collected in `Env`.
-/

namespace Nosig

/-- Platform parameters of one run: the realtime bounds `SIGRTMIN` /
`SIGRTMAX`, the signal set produced by `sigfillset` (the C library may
withhold reserved realtime signals from it), and the per-signal verdict
of `sigaction` (`false` models an `EINVAL` rejection, e.g. for
`SIGKILL`/`SIGSTOP`). -/
structure Env where
  rtmin : Int
  rtmax : Int
  full : Finset Int
  sigok : Int → Bool

/-- `get_sigmax` from nosig.c: with realtime support it is `SIGRTMAX`. -/
def get_sigmax (env : Env) : Int := env.rtmax

/-- One entry of the `signals` table: `struct pair { name; value; }`. -/
structure SigPair where
  name : String
  value : Int
deriving DecidableEq

/-- The static `signals` table of nosig.c instantiated with the
Linux/x86_64 signal numbers (the `ifdef`-guarded entries defined on that
platform are present; `SIGEMT`/`SIGUNUSED` are not defined there). -/
def signals : List SigPair := [
  ⟨"SIGHUP", 1⟩, ⟨"SIGINT", 2⟩, ⟨"SIGQUIT", 3⟩, ⟨"SIGILL", 4⟩,
  ⟨"SIGTRAP", 5⟩, ⟨"SIGABRT", 6⟩, ⟨"SIGIOT", 6⟩, ⟨"SIGBUS", 7⟩,
  ⟨"SIGFPE", 8⟩, ⟨"SIGKILL", 9⟩, ⟨"SIGUSR1", 10⟩, ⟨"SIGSEGV", 11⟩,
  ⟨"SIGUSR2", 12⟩, ⟨"SIGPIPE", 13⟩, ⟨"SIGALRM", 14⟩, ⟨"SIGTERM", 15⟩,
  ⟨"SIGSTKFLT", 16⟩, ⟨"SIGCHLD", 17⟩, ⟨"SIGCONT", 18⟩, ⟨"SIGSTOP", 19⟩,
  ⟨"SIGTSTP", 20⟩, ⟨"SIGTTIN", 21⟩, ⟨"SIGTTOU", 22⟩, ⟨"SIGURG", 23⟩,
  ⟨"SIGXCPU", 24⟩, ⟨"SIGXFSZ", 25⟩, ⟨"SIGVTALRM", 26⟩, ⟨"SIGPROF", 27⟩,
  ⟨"SIGWINCH", 28⟩, ⟨"SIGIO", 29⟩, ⟨"SIGPOLL", 29⟩, ⟨"SIGPWR", 30⟩,
  ⟨"SIGSYS", 31⟩]

/-- `strncmp(name, pat, n) == 0` where `pat` holds exactly `n` characters:
the first `pat.length` characters of `name` equal `pat`. -/
def leadsWith : List Char → List Char → Bool
  | [], _ => true
  | _, [] => false
  | p :: ps, c :: cs => p == c && leadsWith ps cs

/-- The `isspace` class used by `strtol` when skipping leading blanks. -/
def isSpaceC (c : Char) : Bool :=
  c == ' ' || c == '\t' || c == '\n' || c == '\x0b' || c == '\x0c' || c == '\r'

/-- Decimal digit test (`strtol` base 10). -/
def isDigitC (c : Char) : Bool := '0' ≤ c && c ≤ '9'

/-- Numeric value of one decimal digit character. -/
def digitVal (c : Char) : Int := (c.toNat : Int) - ('0'.toNat : Int)

/-- Value of a digit string read left to right. -/
def digitsVal (ds : List Char) : Int :=
  ds.foldl (fun a c => a * 10 + digitVal c) 0

/-- `strtol(s, &end, 10)`: skip leading whitespace, read an optional
sign, then a maximal run of digits.  Returns the value and the suffix
`end` points at; when no digits were consumed, no conversion is
performed and `end` is reset to the start of `s`.  Values are exact
integers: overflow clamping to `LONG_MAX`/`LONG_MIN` is not modelled,
which never changes any accept/reject decision made by nosig.c since
every comparison against the clamped value is also failed by the exact
one. -/
def signSplit : List Char → Int × List Char
  | [] => (1, [])
  | c :: r =>
    if c = '+' then (1, r)
    else if c = '-' then (-1, r)
    else (1, c :: r)

def strtol10 (s : List Char) : Int × List Char :=
  let t := s.dropWhile isSpaceC
  let su := signSplit t
  let ds := su.2.takeWhile isDigitC
  if ds = [] then (0, s) else (su.1 * digitsVal ds, su.2.drop ds.length)

/-- `xatoi` from nosig.c: convert with `strtol` and reject exactly when
the input is nonempty and `*end` is not the terminating NUL. -/
def xatoi (s : List Char) : Except (List Char) Int :=
  let vr := strtol10 s
  match s, vr.2 with
  | _ :: _, _ :: _ => .error ("error: could not decode: ".data ++ s)
  | _, _ => .ok vr.1

/-- `get_signal_num` from nosig.c (realtime build): catalog lookup with
optional `SIG` stripping, then the `SIGRTMIN`/`SIGRTMAX` offset forms,
then a plain number checked against `[0, get_sigmax]`. -/
def get_signal_num (env : Env) (name : List Char) : Except (List Char) Int :=
  let off : Nat := if leadsWith "SIG".data name then 0 else 3
  match signals.find? (fun p => p.name.data.drop off == name) with
  | some p => .ok p.value
  | none =>
    let rtrange : Int := env.rtmax - env.rtmin
    if leadsWith ("SIGRTMIN".data.drop off) name then
      match name.drop (8 - off) with
      | [] => .ok env.rtmin
      | c :: r =>
        if c = '+' then
          match xatoi (c :: r) with
          | .error e => .error e
          | .ok adj =>
            if rtrange < adj then .error "SIGRTMIN offset exceeds range".data
            else .ok (env.rtmin + adj)
        else .error "must be SIGRTMIN or SIGRTMIN+<number>".data
    else if leadsWith ("SIGRTMAX".data.drop off) name then
      match name.drop (8 - off) with
      | [] => .ok env.rtmax
      | c :: r =>
        if c = '-' then
          match xatoi (c :: r) with
          | .error e => .error e
          | .ok adj =>
            if adj < -rtrange then .error "SIGRTMAX offset exceeds range".data
            else .ok (env.rtmax + adj)
        else .error "must be SIGRTMAX or SIGRTMAX-<number>".data
    else
      match xatoi name with
      | .error e => .error e
      | .ok signum =>
        if signum < 0 then
          .error ("only positive integers are allowed: ".data ++ name)
        else if get_sigmax env < signum then
          .error "signals greater than the maximum are not supported".data
        else .ok signum

instance {ε α : Type} [DecidableEq ε] [DecidableEq α] : DecidableEq (Except ε α) :=
  fun x y =>
    match x, y with
    | .ok a, .ok b => if h : a = b then isTrue (by rw [h]) else isFalse (by simp [h])
    | .error a, .error b => if h : a = b then isTrue (by rw [h]) else isFalse (by simp [h])
    | .ok _, .error _ => isFalse (by simp)
    | .error _, .ok _ => isFalse (by simp)

/-- The character printed by `%i` for one decimal digit. -/
def digitChar : Nat → Char
  | 0 => '0' | 1 => '1' | 2 => '2' | 3 => '3' | 4 => '4'
  | 5 => '5' | 6 => '6' | 7 => '7' | 8 => '8' | _ => '9'

/-- Fuel-driven decimal rendering (structural recursion so that concrete
values reduce in the kernel); `natChars` supplies enough fuel. -/
def natCharsAux : Nat → Nat → List Char
  | 0, _ => []
  | fuel + 1, n =>
    if n < 10 then [digitChar n]
    else natCharsAux fuel (n / 10) ++ [digitChar (n % 10)]

/-- The decimal rendering `sprintf("%i", n)` of a natural number. -/
def natChars (n : Nat) : List Char := natCharsAux (n + 1) n

/-- `strsigname` from nosig.c (realtime build): first catalog entry with
the requested value, then the realtime fallbacks.  For an interior
realtime signal the code runs `sprintf(&sigrt[9], "%i", sig)` on the
template `"SIGRTMIN+xx"`, i.e. it prints the signal number itself after
`"SIGRTMIN+"`. -/
def strsigname (env : Env) (sig : Int) : List Char :=
  match signals.find? (fun p => p.value == sig) with
  | some p => p.name.data
  | none =>
    if sig = env.rtmin then "SIGRTMIN".data
    else if sig = env.rtmax then "SIGRTMAX".data
    else if env.rtmin < sig ∧ sig < env.rtmax then
      "SIGRTMIN+".data ++ natChars sig.toNat
    else "SIG???".data

/-! ## The option state machine of `main` -/

/-- A signal disposition as nosig tracks it: `SIG_IGN` or `SIG_DFL`. -/
inductive Disp where
  | ign
  | dfl
deriving DecidableEq

/-- The `how` argument of `sigprocmask`. -/
inductive How where
  | block
  | unblock
  | setmask
deriving DecidableEq

/-- The mutable state `main` drives: the kernel disposition table, the
kernel block mask, the working signal set `set`, and the `verbose`
counter. -/
structure PState where
  disp : Int → Disp
  mask : Finset Int
  set : Finset Int
  verbose : Nat

/-- The inclusive integer range `[first, last]` the C `for` loops walk
(`for (sig = first; sig <= last; ++sig)`); empty when `last < first`. -/
def intRangeAux : Int → Nat → List Int
  | _, 0 => []
  | f, n + 1 => f :: intRangeAux (f + 1) n

def intRange (first last : Int) : List Int :=
  intRangeAux first (last + 1 - first).toNat

/-- `_sigaction_range` from nosig.c: walk the range, ask the kernel to
install `mode` for each signal, skip (but record) rejected signals.  The
kernel verdict is `env.sigok`; a rejection is the `EINVAL` case of the
source (`SIGKILL`/`SIGSTOP`), so `warn` fires exactly when `verbose` is
enabled.  Returns the resulting disposition table and the warned
signals in order. -/
def sigaction_loop (env : Env) (verbose : Nat) (mode : Disp) :
    (Int → Disp) → List Int → List Int → (Int → Disp) × List Int
  | d, ws, [] => (d, ws)
  | d, ws, sig :: rest =>
    if env.sigok sig then
      sigaction_loop env verbose mode (Function.update d sig mode) ws rest
    else
      sigaction_loop env verbose mode d
        (if 0 < verbose then ws ++ [sig] else ws) rest

def sigaction_range (env : Env) (verbose : Nat) (mode : Disp)
    (first last : Int) (d : Int → Disp) : (Int → Disp) × List Int :=
  sigaction_loop env verbose mode d [] (intRange first last)

/-- `set_sigaction_ignore_range` from nosig.c. -/
def set_sigaction_ignore_range (env : Env) (verbose : Nat)
    (first last : Int) (d : Int → Disp) : (Int → Disp) × List Int :=
  sigaction_range env verbose .ign first last d

/-- `set_sigaction_default_range` from nosig.c. -/
def set_sigaction_default_range (env : Env) (verbose : Nat)
    (first last : Int) (d : Int → Disp) : (Int → Disp) × List Int :=
  sigaction_range env verbose .dfl first last d

/-- The kernel effect of `sigprocmask(how, set, NULL)` on the block
mask. -/
def sigprocmaskApply : How → Finset Int → Finset Int → Finset Int
  | .block, s, m => m ∪ s
  | .unblock, s, m => m \ s
  | .setmask, s, _ => s

/-- `sigprocmask_range` from nosig.c: `sigfillset`, then `sigdelset`
each signal of `[first, last]`, then apply the resulting set with
`how`.  Note the inverted meaning of `first`/`last`: the range is the
part removed from the full set. -/
def sigprocmask_range (env : Env) (how : How) (first last : Int)
    (mask : Finset Int) : Finset Int :=
  sigprocmaskApply how
    ((intRange first last).foldl (fun acc sig => acc.erase sig) env.full) mask

/-- One command of `main`'s option loop, as dispatched by the `switch`.
Options that carry a sigspec keep it as the raw string; `main` resolves
it with `get_signal_num` when the option is processed.  `badFlag` is
getopt's unknown-option case (`show_usage(EXIT_ERR)`). -/
inductive Opt where
  | reset
  | verbose
  | add (spec : List Char)
  | del (spec : List Char)
  | empty
  | fill
  | block
  | unblock
  | set
  | blockAll
  | blockAllStd
  | blockAllRt
  | unblockAll
  | unblockAllStd
  | unblockAllRt
  | ignore (spec : List Char)
  | ignoreAll
  | ignoreAllStd
  | ignoreAllRt
  | default (spec : List Char)
  | defaultAll
  | defaultAllStd
  | defaultAllRt
  | badFlag

/-- One iteration of `main`'s option `switch`.  A fatal `errx` (invalid
sigspec, usage error) becomes `Except.error`. -/
def step (env : Env) (st : PState) : Opt → Except (List Char) PState
  | .reset =>
    .ok { st with
          mask := sigprocmask_range env .unblock 0 (-1) st.mask,
          disp := (set_sigaction_default_range env st.verbose 1
                    (get_sigmax env) st.disp).1 }
  | .verbose => .ok { st with verbose := st.verbose + 1 }
  | .add spec =>
    match get_signal_num env spec with
    | .error e => .error e
    | .ok n => .ok { st with set := insert n st.set }
  | .del spec =>
    match get_signal_num env spec with
    | .error e => .error e
    | .ok n => .ok { st with set := st.set.erase n }
  | .empty => .ok { st with set := ∅ }
  | .fill => .ok { st with set := env.full }
  | .block => .ok { st with mask := sigprocmaskApply .block st.set st.mask }
  | .unblock => .ok { st with mask := sigprocmaskApply .unblock st.set st.mask }
  | .set => .ok { st with mask := sigprocmaskApply .setmask st.set st.mask }
  | .blockAllRt =>
    .ok { st with mask := sigprocmask_range env .block 1 (env.rtmin - 1) st.mask }
  | .blockAllStd =>
    .ok { st with mask := sigprocmask_range env .block env.rtmin env.rtmax st.mask }
  | .blockAll =>
    .ok { st with mask := sigprocmask_range env .block 0 (-1) st.mask }
  | .unblockAllRt =>
    .ok { st with mask := sigprocmask_range env .unblock 1 (env.rtmin - 1) st.mask }
  | .unblockAllStd =>
    .ok { st with mask := sigprocmask_range env .unblock env.rtmin env.rtmax st.mask }
  | .unblockAll =>
    .ok { st with mask := sigprocmask_range env .unblock 0 (-1) st.mask }
  | .ignore spec =>
    match get_signal_num env spec with
    | .error e => .error e
    | .ok n =>
      .ok { st with disp := (set_sigaction_ignore_range env st.verbose n n st.disp).1 }
  | .ignoreAllRt =>
    .ok { st with disp := (set_sigaction_ignore_range env st.verbose
                            env.rtmin env.rtmax st.disp).1 }
  | .ignoreAllStd =>
    .ok { st with disp := (set_sigaction_ignore_range env st.verbose
                            1 (env.rtmin - 1) st.disp).1 }
  | .ignoreAll =>
    .ok { st with disp := (set_sigaction_ignore_range env st.verbose
                            1 (get_sigmax env) st.disp).1 }
  | .default spec =>
    match get_signal_num env spec with
    | .error e => .error e
    | .ok n =>
      .ok { st with disp := (set_sigaction_default_range env st.verbose n n st.disp).1 }
  | .defaultAllRt =>
    .ok { st with disp := (set_sigaction_default_range env st.verbose
                            env.rtmin env.rtmax st.disp).1 }
  | .defaultAllStd =>
    .ok { st with disp := (set_sigaction_default_range env st.verbose
                            1 (env.rtmin - 1) st.disp).1 }
  | .defaultAll =>
    .ok { st with disp := (set_sigaction_default_range env st.verbose
                            1 (get_sigmax env) st.disp).1 }
  | .badFlag => .error "usage error".data

/-- `main`'s option loop: apply the options in command-line order,
stopping at the first fatal error. -/
def runOpts (env : Env) (st : PState) : List Opt → Except (List Char) PState
  | [] => .ok st
  | o :: os =>
    match step env st o with
    | .error e => .error e
    | .ok st' => runOpts env st' os

/-- The Linux/glibc instantiation used for concrete evaluations:
`SIGRTMIN = 34`, `SIGRTMAX = 64`, `sigfillset` covering `1..64`, and a
kernel that accepts every `sigaction` request. -/
def linuxEnv : Env :=
  { rtmin := 34
    rtmax := 64
    full := ((List.range 64).map (fun i => (i : Int) + 1)).toFinset
    sigok := fun _ => true }

/-! ## Process handoff and exit statuses -/

/-- The `errno` values `main` distinguishes after `execvp` fails. -/
inductive Errno where
  | enoent
  | eacces
  | other
deriving DecidableEq

/-- The exit-status mapping after a failed `execvp`:
`EXIT_PROG_NOT_FOUND = 127`, `EXIT_PROG_NOT_EXEC = 126`,
`EXIT_ERR = 125`. -/
def exec_fail_status : Errno → Nat
  | .enoent => 127
  | .eacces => 126
  | .other => 125

/-- What `main` does after the option loop: either the process exited by
itself (fatal error paths, all of which use `EXIT_ERR = 125`), or it
hands the configured state plus the remaining argument vector to
`execvp`. -/
inductive MainResult where
  | exited (code : Nat)
  | handoff (st : PState) (args : List (List Char))

/-- `main` end to end: process the options in order; any fatal error
exits with `EXIT_ERR` before any handoff; an empty remaining argv is the
`missing program to run` error; otherwise exec the program. -/
def mainModel (env : Env) (st : PState) (opts : List Opt)
    (args : List (List Char)) : MainResult :=
  match runOpts env st opts with
  | .error _ => .exited 125
  | .ok st' =>
    match args with
    | [] => .exited 125
    | _ :: _ => .handoff st' args

/-- The outcome of the `execvp` call, decided outside nosig: the
program ran and exited with its own status, or exec failed with an
errno. -/
inductive ExecOutcome where
  | ran (status : Nat)
  | fail (e : Errno)

/-- The observed exit status of the whole invocation given `main`'s
result and the exec outcome.  A `handoff` that runs passes the child's
status through unchanged; a failed exec uses the `err(status, ...)`
mapping of nosig.c. -/
def finalStatus : MainResult → ExecOutcome → Nat
  | .exited c, _ => c
  | .handoff _ _, .ran status => status
  | .handoff _ _, .fail e => exec_fail_status e

/-! ## Projections and claim-side (spec-worded) predicates -/

/-- Whether an `Except` is the error case. -/
def isErr {ε α : Type} : Except ε α → Bool
  | .error _ => true
  | .ok _ => false

/-- Block mask of an option-loop result (empty mask on error). -/
def maskOf : Except (List Char) PState → Finset Int
  | .ok st => st.mask
  | .error _ => ∅

/-- Disposition table of an option-loop result (all-default on error). -/
def dispOf : Except (List Char) PState → Int → Disp
  | .ok st => st.disp
  | .error _ => fun _ => .dfl

/-- Working set of an option-loop result (empty on error). -/
def wsOf : Except (List Char) PState → Finset Int
  | .ok st => st.set
  | .error _ => ∅

/-- The set-management commands of the spec: `add`, `del`, `empty`,
`fill` — the only commands documented to mutate the WorkingSet. -/
def isSetMgmt : Opt → Bool
  | .add _ => true
  | .del _ => true
  | .empty => true
  | .fill => true
  | _ => false

/-- Claim-side: the input is a catalog signal name, with the leading
`SIG` either present or stripped (spec 4.2 steps 1–2). -/
def isCatalogName (s : List Char) : Bool :=
  signals.any (fun p => p.name.data == s || p.name.data.drop 3 == s)

/-- Nonempty all-digit string. -/
def allDigitsB (l : List Char) : Bool :=
  !l.isEmpty && l.all isDigitC

/-- Claim-side: a well-formed, in-range realtime form — `SIGRTMIN`
optionally followed by `+<digits>`, or `SIGRTMAX` optionally followed by
`-<digits>`, the offset staying within `[min, max]`, with the leading
`SIG` optional (spec 4.2 steps 1 and 3). -/
def claimRT (env : Env) (s : List Char) : Bool :=
  let t := if leadsWith "SIG".data s then s else "SIG".data ++ s
  t == "SIGRTMIN".data || t == "SIGRTMAX".data ||
  (leadsWith "SIGRTMIN+".data t && allDigitsB (t.drop 9) &&
    digitsVal (t.drop 9) ≤ env.rtmax - env.rtmin) ||
  (leadsWith "SIGRTMAX-".data t && allDigitsB (t.drop 9) &&
    digitsVal (t.drop 9) ≤ env.rtmax - env.rtmin)

/-- Claim-side: a complete non-negative base-10 integer not exceeding
`sigmax()` — the claim's third accepted category, read literally as a
nonempty run of digits. -/
def claimNumeric (env : Env) (s : List Char) : Bool :=
  allDigitsB s && digitsVal s ≤ get_sigmax env

/-- Claim-side: the three accepted categories named by claim C3. -/
def claimAccepted (env : Env) (s : List Char) : Bool :=
  isCatalogName s || claimRT env s || claimNumeric env s

/-- Sign factor of an optional sign character. -/
def sgnOf (g : List Char) : Int := if g = ['-'] then -1 else 1

/-- Amended numeric category: what `strtol`-driven parsing actually
accepts as a whole-string number — optional leading whitespace, an
optional single sign, then a nonempty run of digits reaching the end of
the string — with the signed value within `[0, sigmax]`. -/
def StrtolNumeric (env : Env) (s : List Char) : Prop :=
  ∃ w g ds, s = w ++ g ++ ds ∧ w.all isSpaceC = true ∧
    (g = [] ∨ g = ['+'] ∨ g = ['-']) ∧ ds ≠ [] ∧ ds.all isDigitC = true ∧
    0 ≤ sgnOf g * digitsVal ds ∧ sgnOf g * digitsVal ds ≤ get_sigmax env

/-- The amended acceptance predicate of claim C3: the claim's catalog
and realtime categories, the `strtol`-style numeric category, and the
empty string (which `strtol` leaves unconverted at value 0 and `xatoi`
does not flag). -/
def AmendedAccepted (env : Env) (s : List Char) : Prop :=
  s = [] ∨ isCatalogName s = true ∨ claimRT env s = true ∨ StrtolNumeric env s

/-- Nominal state at `main` entry: `sigemptyset(&set)`, no verbosity,
and a clean inherited kernel state. -/
def st0 : PState :=
  { disp := fun _ => .dfl, mask := ∅, set := ∅, verbose := 0 }

/-- A small platform used for concrete counterexamples and witnesses. -/
def smallEnv : Env :=
  { rtmin := 4
    rtmax := 6
    full := ({1, 2, 3, 4, 5, 6} : Finset Int)
    sigok := fun _ => true }

/-! ## Range and loop lemmas -/

theorem mem_intRangeAux {x f : Int} {n : Nat} :
    x ∈ intRangeAux f n ↔ f ≤ x ∧ x < f + n := by
  induction n generalizing f with
  | zero => simp [intRangeAux]
  | succ n ih =>
    simp only [intRangeAux, List.mem_cons, ih]
    omega

theorem mem_intRange {x first last : Int} :
    x ∈ intRange first last ↔ first ≤ x ∧ x ≤ last := by
  simp only [intRange, mem_intRangeAux]
  omega

theorem sigaction_loop_fst (env : Env) (v : Nat) (mode : Disp) :
    ∀ (l : List Int) (d : Int → Disp) (ws : List Int) (x : Int),
      (sigaction_loop env v mode d ws l).1 x =
        if x ∈ l ∧ env.sigok x = true then mode else d x := by
  intro l
  induction l with
  | nil => simp [sigaction_loop]
  | cons sig rest ih =>
    intro d ws x
    by_cases hok : env.sigok sig = true
    · rw [sigaction_loop, if_pos hok, ih]
      by_cases hx : x = sig
      · subst hx
        by_cases hmem : x ∈ rest <;> simp_all [Function.update]
      · simp [Function.update, hx, List.mem_cons]
    · rw [sigaction_loop, if_neg hok, ih]
      by_cases hx : x = sig
      · subst hx
        simp only [Bool.not_eq_true] at hok
        simp [hok, List.mem_cons]
      · simp [hx, List.mem_cons]

theorem sigaction_loop_snd (env : Env) (v : Nat) (mode : Disp) :
    ∀ (l : List Int) (d : Int → Disp) (ws : List Int),
      (sigaction_loop env v mode d ws l).2 =
        ws ++ (if 0 < v then l.filter (fun s => !env.sigok s) else []) := by
  intro l
  induction l with
  | nil => simp [sigaction_loop]
  | cons sig rest ih =>
    intro d ws
    by_cases hok : env.sigok sig = true
    · rw [sigaction_loop, if_pos hok, ih]
      simp [List.filter_cons, hok]
    · rw [sigaction_loop, if_neg hok, ih]
      simp only [Bool.not_eq_true] at hok
      by_cases hv : 0 < v <;> simp [List.filter_cons, hok, hv]

theorem sigaction_range_fst (env : Env) (v : Nat) (mode : Disp)
    (first last : Int) (d : Int → Disp) (x : Int) :
    (sigaction_range env v mode first last d).1 x =
      if first ≤ x ∧ x ≤ last ∧ env.sigok x = true then mode else d x := by
  rw [sigaction_range, sigaction_loop_fst]
  by_cases h : x ∈ intRange first last
  · rw [mem_intRange] at h
    by_cases hok : env.sigok x = true <;>
      simp [mem_intRange, h.1, h.2, hok]
  · rw [mem_intRange] at h
    have : ¬(first ≤ x ∧ x ≤ last ∧ env.sigok x = true) := by tauto
    simp only [mem_intRange]
    rw [if_neg (by tauto), if_neg this]

theorem sigaction_range_snd (env : Env) (v : Nat) (mode : Disp)
    (first last : Int) (d : Int → Disp) :
    (sigaction_range env v mode first last d).2 =
      if 0 < v then (intRange first last).filter (fun s => !env.sigok s)
      else [] := by
  rw [sigaction_range, sigaction_loop_snd, List.nil_append]

theorem mem_foldl_erase (l : List Int) :
    ∀ (s : Finset Int) (x : Int),
      (x ∈ l.foldl (fun acc sig => acc.erase sig) s) ↔ x ∈ s ∧ x ∉ l := by
  induction l with
  | nil => simp
  | cons sig rest ih =>
    intro s x
    simp only [List.foldl_cons, ih, Finset.mem_erase, List.mem_cons]
    tauto

theorem mem_sigprocmask_range (env : Env) (how : How) (first last : Int)
    (mask : Finset Int) (x : Int) :
    x ∈ sigprocmask_range env how first last mask ↔
      match how with
      | .block => x ∈ mask ∨ (x ∈ env.full ∧ ¬(first ≤ x ∧ x ≤ last))
      | .unblock => x ∈ mask ∧ ¬(x ∈ env.full ∧ ¬(first ≤ x ∧ x ≤ last))
      | .setmask => x ∈ env.full ∧ ¬(first ≤ x ∧ x ≤ last) := by
  cases how <;>
    simp [sigprocmask_range, sigprocmaskApply, mem_foldl_erase, mem_intRange]

/-! ## Claim theorems -/

/-- C10: the signal spec resolver accepts the numeric input string `"0"`
and returns signal number 0 — the numeric branch only rejects negative
values and values above `sigmax()`. -/
theorem C10_resolver_accepts_zero (env : Env) (h : 0 ≤ get_sigmax env) :
    get_signal_num env "0".data = .ok 0 := by
  have hstep : get_signal_num env "0".data =
      if get_sigmax env < 0 then
        .error "signals greater than the maximum are not supported".data
      else .ok 0 := rfl
  rw [hstep, if_neg (by omega)]

theorem C10_resolver_accepts_zero_witness :
    get_signal_num linuxEnv "0".data = .ok 0 :=
  C10_resolver_accepts_zero linuxEnv (by decide)

/-- C6: a per-signal kernel rejection during a ranged disposition-set
never aborts the range walk: every accepted signal in `[first, last]`
still gets the requested mode no matter which other signals fail, a
rejected signal's disposition is simply left alone, and the rejection
surfaces as a warning exactly when verbosity is enabled (never as a
fatal error — the function is total and always returns the updated
table). -/
theorem C6_rejection_never_aborts (env : Env) (v : Nat) (mode : Disp)
    (first last : Int) (d : Int → Disp) :
    (∀ x : Int, first ≤ x → x ≤ last → env.sigok x = true →
        (sigaction_range env v mode first last d).1 x = mode)
    ∧ (∀ x : Int, env.sigok x = false →
        (sigaction_range env v mode first last d).1 x = d x)
    ∧ (v = 0 → (sigaction_range env v mode first last d).2 = [])
    ∧ (0 < v → (sigaction_range env v mode first last d).2 =
        (intRange first last).filter (fun s => !env.sigok s)) := by
  refine ⟨?_, ?_, ?_, ?_⟩
  · intro x h1 h2 hok
    rw [sigaction_range_fst, if_pos ⟨h1, h2, hok⟩]
  · intro x hbad
    rw [sigaction_range_fst, if_neg (by simp [hbad])]
  · intro hv
    rw [sigaction_range_snd, if_neg (by omega)]
  · intro hv
    rw [sigaction_range_snd, if_pos hv]

/-- An environment whose kernel rejects signal 2 only (for the C6
witness). -/
def rejEnv : Env :=
  { rtmin := 4
    rtmax := 6
    full := ({1, 2, 3, 4, 5, 6} : Finset Int)
    sigok := fun s => s != 2 }

theorem C6_rejection_never_aborts_witness :
    (sigaction_range rejEnv 1 .ign 1 6 (fun _ => .dfl)).1 3 = .ign
    ∧ (sigaction_range rejEnv 1 .ign 1 6 (fun _ => .dfl)).1 2 = .dfl
    ∧ (sigaction_range rejEnv 0 .ign 1 6 (fun _ => .dfl)).2 = []
    ∧ (sigaction_range rejEnv 1 .ign 1 6 (fun _ => .dfl)).2 =
        (intRange 1 6).filter (fun s => !rejEnv.sigok s) :=
  ⟨(C6_rejection_never_aborts rejEnv 1 .ign 1 6 (fun _ => .dfl)).1 3
      (by decide) (by decide) (by decide),
   (C6_rejection_never_aborts rejEnv 1 .ign 1 6 (fun _ => .dfl)).2.1 2 (by decide),
   (C6_rejection_never_aborts rejEnv 0 .ign 1 6 (fun _ => .dfl)).2.2.1 rfl,
   (C6_rejection_never_aborts rejEnv 1 .ign 1 6 (fun _ => .dfl)).2.2.2 (by decide)⟩

/-- Any single non-set-management command leaves the working set
untouched. -/
theorem step_preserves_set (env : Env) (st : PState) (o : Opt) (st1 : PState)
    (hno : isSetMgmt o = false) (h : step env st o = .ok st1) :
    st1.set = st.set := by
  cases o <;>
    first
    | (simp only [step] at h
       (try split at h) <;>
         first
         | (cases h; rfl)
         | exact Except.noConfusion h)
    | simp [isSetMgmt] at hno

/-- C7: the WorkingSet is mutated only by `add`/`del`/`empty`/`fill` —
any successful run of a command list containing none of those four
leaves the working set exactly as it started, however many consumption
operations, resets, oneshots or shortcuts the list contains. -/
theorem C7_working_set_frame (env : Env) (st : PState) (opts : List Opt)
    (st' : PState) (hno : ∀ o ∈ opts, isSetMgmt o = false)
    (hrun : runOpts env st opts = .ok st') :
    st'.set = st.set := by
  induction opts generalizing st with
  | nil =>
    rw [runOpts] at hrun
    cases hrun
    rfl
  | cons o os ih =>
    rw [runOpts] at hrun
    cases hstep : step env st o with
    | error e => rw [hstep] at hrun; cases hrun
    | ok st1 =>
      rw [hstep] at hrun
      have h1 := step_preserves_set env st o st1 (hno o (by simp)) hstep
      have h2 := ih st1 (fun o ho => hno o (by simp [ho])) hrun
      rw [h2, h1]

/-- Concrete inputs for the C7 witness: a working set `{3, 5}` pushed
through every kind of non-set-management command. -/
def frameSt : PState := { st0 with set := ({3, 5} : Finset Int) }

def frameOpts : List Opt :=
  [Opt.reset, Opt.block, Opt.unblock, Opt.set, Opt.ignoreAll,
   Opt.default "INT".data, Opt.blockAllStd, Opt.verbose]

theorem C7_working_set_frame_witness :
    wsOf (runOpts smallEnv frameSt frameOpts) = ({3, 5} : Finset Int) := by
  have hnoerr : isErr (runOpts smallEnv frameSt frameOpts) = false := by decide
  cases hrun : runOpts smallEnv frameSt frameOpts with
  | error e => rw [hrun] at hnoerr; simp [isErr] at hnoerr
  | ok st' =>
    have hset := C7_working_set_frame smallEnv frameSt frameOpts st'
      (by decide) hrun
    simp only [wsOf]
    rw [hset]
    rfl

/-- C9: a fatal error in the option phase (invalid sigspec, usage
error) or a missing program name makes the invocation exit with
`EXIT_ERR = 125` and never reach the exec handoff, so no child process
is started; when the handoff happens, a failed exec maps `ENOENT` to
127, `EACCES` to 126 and anything else to 125, while a program that
runs passes its own exit status through unchanged. -/
theorem C9_exit_contract (env : Env) (st : PState) (opts : List Opt)
    (args : List (List Char)) (e : List Char) (st' : PState)
    (handArgs : List (List Char)) (code : Nat) :
    (runOpts env st opts = .error e →
        mainModel env st opts args = .exited 125
        ∧ ∀ (st1 : PState) (as1 : List (List Char)),
            mainModel env st opts args ≠ .handoff st1 as1)
    ∧ mainModel env st opts [] = .exited 125
    ∧ (mainModel env st opts [] ≠ .handoff st' handArgs)
    ∧ finalStatus (.handoff st' handArgs) (.fail .enoent) = 127
    ∧ finalStatus (.handoff st' handArgs) (.fail .eacces) = 126
    ∧ finalStatus (.handoff st' handArgs) (.fail .other) = 125
    ∧ finalStatus (.handoff st' handArgs) (.ran code) = code := by
  refine ⟨?_, ?_, ?_, rfl, rfl, rfl, rfl⟩
  · intro herr
    rw [mainModel, herr]
    exact ⟨rfl, fun st1 as1 => by simp⟩
  · rw [mainModel]
    cases runOpts env st opts <;> rfl
  · rw [mainModel]
    cases runOpts env st opts <;> simp

theorem C9_exit_contract_witness :
    mainModel smallEnv st0 [Opt.badFlag] ["true".data] = .exited 125
    ∧ mainModel smallEnv st0 [Opt.verbose] [] = .exited 125
    ∧ finalStatus (.handoff st0 ["true".data]) (.fail .enoent) = 127
    ∧ finalStatus (.handoff st0 ["true".data]) (.fail .eacces) = 126
    ∧ finalStatus (.handoff st0 ["true".data]) (.fail .other) = 125
    ∧ finalStatus (.handoff st0 ["true".data]) (.ran 42) = 42 :=
  ⟨((C9_exit_contract smallEnv st0 [Opt.badFlag] ["true".data]
      "usage error".data st0 ["true".data] 42).1 rfl).1,
   (C9_exit_contract smallEnv st0 [Opt.verbose] [] "usage error".data
      st0 ["true".data] 42).2.1,
   (C9_exit_contract smallEnv st0 [Opt.verbose] [] "usage error".data
      st0 ["true".data] 42).2.2.2.1,
   (C9_exit_contract smallEnv st0 [Opt.verbose] [] "usage error".data
      st0 ["true".data] 42).2.2.2.2.1,
   (C9_exit_contract smallEnv st0 [Opt.verbose] [] "usage error".data
      st0 ["true".data] 42).2.2.2.2.2.1,
   (C9_exit_contract smallEnv st0 [Opt.verbose] [] "usage error".data
      st0 ["true".data] 42).2.2.2.2.2.2⟩

/-- C1: later commands win.  On a kernel that accepts every
`sigaction` request, `ignore-all` followed by `default SIGINT` leaves
SIGINT (signal 2) at the default disposition and every other signal of
`[1, sigmax]` ignored, while the reverse order leaves every signal of
`[1, sigmax]`, SIGINT included, ignored. -/
theorem C1_order_sensitivity (env : Env) (st : PState)
    (hok : ∀ s : Int, env.sigok s = true) :
    dispOf (runOpts env st [Opt.ignoreAll, Opt.default "INT".data]) 2 = .dfl
    ∧ (∀ s : Int, 1 ≤ s → s ≤ get_sigmax env → s ≠ 2 →
        dispOf (runOpts env st [Opt.ignoreAll, Opt.default "INT".data]) s = .ign)
    ∧ (∀ s : Int, 1 ≤ s → s ≤ get_sigmax env →
        dispOf (runOpts env st [Opt.default "INT".data, Opt.ignoreAll]) s = .ign) := by
  have hres : get_signal_num env "INT".data = .ok 2 := rfl
  refine ⟨?_, ?_, ?_⟩
  · simp only [runOpts, step, hres, dispOf, set_sigaction_default_range,
      set_sigaction_ignore_range]
    rw [sigaction_range_fst, if_pos ⟨le_refl 2, le_refl 2, hok 2⟩]
  · intro s h1 hle hne
    simp only [runOpts, step, hres, dispOf, set_sigaction_default_range,
      set_sigaction_ignore_range]
    rw [sigaction_range_fst, if_neg (by rintro ⟨a, b, -⟩; omega),
      sigaction_range_fst, if_pos ⟨h1, hle, hok s⟩]
  · intro s h1 hle
    simp only [runOpts, step, hres, dispOf, set_sigaction_default_range,
      set_sigaction_ignore_range]
    rw [sigaction_range_fst, if_pos ⟨h1, hle, hok s⟩]

theorem C1_order_sensitivity_witness :
    dispOf (runOpts linuxEnv st0 [Opt.ignoreAll, Opt.default "INT".data]) 2 = .dfl
    ∧ dispOf (runOpts linuxEnv st0 [Opt.ignoreAll, Opt.default "INT".data]) 15 = .ign
    ∧ dispOf (runOpts linuxEnv st0 [Opt.default "INT".data, Opt.ignoreAll]) 2 = .ign :=
  ⟨(C1_order_sensitivity linuxEnv st0 (fun _ => rfl)).1,
   (C1_order_sensitivity linuxEnv st0 (fun _ => rfl)).2.1 15
      (by decide) (by decide) (by decide),
   (C1_order_sensitivity linuxEnv st0 (fun _ => rfl)).2.2 2
      (by decide) (by decide)⟩

/-- A start state in which signal 2 is already blocked (inherited block
masks survive `exec`, so nosig can start this way). -/
def blockedSt : PState :=
  { disp := fun _ => .dfl, mask := ({2} : Finset Int), set := ∅, verbose := 0 }

/-- C2 counterexample: starting from the same initial block-mask state
`{2}`, `fill; del(2); block` and `block-all; empty; add(2); unblock` do
NOT produce identical kernel masks — the first sequence leaves signal 2
blocked (`--block` only adds to the mask), the second unblocks it — and
the first sequence's result does not leave signal 2 unblocked as the
claim's "every signal except X is blocked" requires. -/
theorem C2_counterexample :
    maskOf (runOpts smallEnv blockedSt [Opt.fill, Opt.del "2".data, Opt.block])
      ≠ maskOf (runOpts smallEnv blockedSt
          [Opt.blockAll, Opt.empty, Opt.add "2".data, Opt.unblock])
    ∧ (2 : Int) ∈
        maskOf (runOpts smallEnv blockedSt
          [Opt.fill, Opt.del "2".data, Opt.block]) := by
  decide

/-- C2 amended: for a signal `X` that is NOT already blocked in the
shared initial state, `fill; del(X); block` and `block-all` followed by
`empty; add(X); unblock` produce bit-for-bit identical kernel masks, and
that mask blocks every signal of the full set except `X` while leaving
`X` unblocked. -/
theorem C2_fill_del_block_equiv (env : Env) (st : PState) (X : Int)
    (spec : List Char) (hspec : get_signal_num env spec = .ok X)
    (hX : X ∉ st.mask) :
    maskOf (runOpts env st [Opt.fill, Opt.del spec, Opt.block]) =
      maskOf (runOpts env st [Opt.blockAll, Opt.empty, Opt.add spec, Opt.unblock])
    ∧ (∀ s : Int, s ∈ env.full → s ≠ X →
        s ∈ maskOf (runOpts env st [Opt.fill, Opt.del spec, Opt.block]))
    ∧ X ∉ maskOf (runOpts env st [Opt.fill, Opt.del spec, Opt.block]) := by
  have hempty : intRange 0 (-1) = ([] : List Int) := rfl
  simp only [runOpts, step, hspec, maskOf, sigprocmask_range, hempty,
    List.foldl_nil, sigprocmaskApply]
  refine ⟨?_, ?_, ?_⟩
  · ext s
    simp only [Finset.mem_union, Finset.mem_erase, Finset.mem_sdiff,
      Finset.mem_insert, Finset.not_mem_empty, or_false]
    constructor
    · rintro (hs | ⟨hne, hs⟩)
      · exact ⟨Or.inl hs, fun h => hX (h ▸ hs)⟩
      · exact ⟨Or.inr hs, hne⟩
    · rintro ⟨hs | hs, hne⟩
      · exact Or.inl hs
      · exact Or.inr ⟨hne, hs⟩
  · intro s hs hne
    simp only [Finset.mem_union, Finset.mem_erase]
    exact Or.inr ⟨hne, hs⟩
  · simp only [Finset.mem_union, Finset.mem_erase]
    rintro (h | ⟨hne, -⟩)
    · exact hX h
    · exact hne rfl

theorem C2_fill_del_block_equiv_witness :
    maskOf (runOpts smallEnv st0 [Opt.fill, Opt.del "2".data, Opt.block]) =
      maskOf (runOpts smallEnv st0
        [Opt.blockAll, Opt.empty, Opt.add "2".data, Opt.unblock])
    ∧ (3 : Int) ∈
        maskOf (runOpts smallEnv st0 [Opt.fill, Opt.del "2".data, Opt.block])
    ∧ (2 : Int) ∉
        maskOf (runOpts smallEnv st0 [Opt.fill, Opt.del "2".data, Opt.block]) :=
  ⟨(C2_fill_del_block_equiv smallEnv st0 2 "2".data (by decide)
      (by decide)).1,
   (C2_fill_del_block_equiv smallEnv st0 2 "2".data (by decide)
      (by decide)).2.1 3 (by decide) (by decide),
   (C2_fill_del_block_equiv smallEnv st0 2 "2".data (by decide)
      (by decide)).2.2⟩

/-- C8: every catalog name resolves to the same signal number whether
the leading `SIG` is written or stripped, and matching is
case-sensitive (a lowercase spelling is rejected). -/
theorem C8_sig_optional (env : Env) :
    (∀ p ∈ signals,
        get_signal_num env p.name.data = .ok p.value
        ∧ get_signal_num env (p.name.data.drop 3) = .ok p.value)
    ∧ isErr (get_signal_num env "sigterm".data) = true := by
  constructor
  · intro p hp
    fin_cases hp <;> exact ⟨rfl, rfl⟩
  · rfl

theorem C8_sig_optional_witness :
    get_signal_num linuxEnv "SIGTERM".data = .ok 15
    ∧ get_signal_num linuxEnv "TERM".data = .ok 15
    ∧ isErr (get_signal_num linuxEnv "sigterm".data) = true :=
  ⟨((C8_sig_optional linuxEnv).1 ⟨"SIGTERM", 15⟩ (by decide)).1,
   ((C8_sig_optional linuxEnv).1 ⟨"SIGTERM", 15⟩ (by decide)).2,
   (C8_sig_optional linuxEnv).2⟩

/-! ## Decimal rendering lemmas -/

theorem digitVal_digitChar {d : Nat} (h : d < 10) :
    digitVal (digitChar d) = (d : Int) := by
  interval_cases d <;> decide

theorem isDigitC_digitChar (d : Nat) : isDigitC (digitChar d) = true := by
  match d with
  | 0 | 1 | 2 | 3 | 4 | 5 | 6 | 7 | 8 => decide
  | n + 9 => rfl

theorem digitsVal_append (xs : List Char) (c : Char) :
    digitsVal (xs ++ [c]) = 10 * digitsVal xs + digitVal c := by
  simp only [digitsVal, List.foldl_append, List.foldl_cons, List.foldl_nil]
  ring

theorem natCharsAux_spec :
    ∀ (fuel n : Nat), n < fuel →
      natCharsAux fuel n ≠ [] ∧ (natCharsAux fuel n).all isDigitC = true
      ∧ digitsVal (natCharsAux fuel n) = (n : Int) := by
  intro fuel
  induction fuel with
  | zero => omega
  | succ fuel ih =>
    intro n hn
    rw [natCharsAux]
    by_cases h10 : n < 10
    · rw [if_pos h10]
      refine ⟨by simp, by simp [isDigitC_digitChar], ?_⟩
      simp only [digitsVal, List.foldl_cons, List.foldl_nil]
      rw [digitVal_digitChar h10]
      ring
    · rw [if_neg h10]
      have hdiv : n / 10 < fuel := by
        have h1 : 0 < n := by omega
        have := Nat.div_lt_self h1 (by omega : 1 < 10)
        omega
      obtain ⟨hne, hall, hval⟩ := ih (n / 10) hdiv
      refine ⟨by simp, ?_, ?_⟩
      · simp [List.all_append, hall, isDigitC_digitChar]
      · rw [digitsVal_append, hval, digitVal_digitChar (Nat.mod_lt n (by omega))]
        have := Nat.div_add_mod n 10
        push_cast
        omega

theorem natChars_ne_nil (n : Nat) : natChars n ≠ [] :=
  (natCharsAux_spec (n + 1) n (by omega)).1

theorem natChars_all_digits (n : Nat) : (natChars n).all isDigitC = true :=
  (natCharsAux_spec (n + 1) n (by omega)).2.1

theorem digitsVal_natChars (n : Nat) : digitsVal (natChars n) = (n : Int) :=
  (natCharsAux_spec (n + 1) n (by omega)).2.2

/-! ## `strtol`/`xatoi` computation lemmas -/

theorem takeWhile_all_eq {p : Char → Bool} :
    ∀ {l : List Char}, l.all p = true → l.takeWhile p = l := by
  intro l
  induction l with
  | nil => intro _; rfl
  | cons c cs ih =>
    intro h
    rw [List.all_cons, Bool.and_eq_true] at h
    rw [List.takeWhile_cons, if_pos h.1, ih h.2]

theorem strtol10_sign_digits (c : Char) (ds : List Char) (hne : ds ≠ [])
    (hall : ds.all isDigitC = true) (hsp : isSpaceC c = false)
    (hsgn : c = '+' ∨ c = '-') :
    strtol10 (c :: ds) = ((if c = '-' then -1 else 1) * digitsVal ds, []) := by
  have hdrop : (c :: ds).dropWhile isSpaceC = c :: ds := by
    rw [List.dropWhile_cons, if_neg (by simp [hsp])]
  have htake : ds.takeWhile isDigitC = ds := takeWhile_all_eq hall
  rcases hsgn with h | h <;> subst h <;>
    simp [strtol10, hdrop, signSplit, htake, hne, List.drop_length]

theorem xatoi_plus_digits (ds : List Char) (hne : ds ≠ [])
    (hall : ds.all isDigitC = true) :
    xatoi ('+' :: ds) = .ok (digitsVal ds) := by
  have h := strtol10_sign_digits '+' ds hne hall (by decide) (Or.inl rfl)
  rw [if_neg (by decide)] at h
  simp only [xatoi, h]
  norm_num

theorem xatoi_minus_digits (ds : List Char) (hne : ds ≠ [])
    (hall : ds.all isDigitC = true) :
    xatoi ('-' :: ds) = .ok (-digitsVal ds) := by
  have h := strtol10_sign_digits '-' ds hne hall (by decide) (Or.inr rfl)
  rw [if_pos rfl] at h
  simp only [xatoi, h]
  norm_num

/-- C4: realtime offset resolution.  For `0 ≤ k ≤ SIGRTMAX - SIGRTMIN`,
`SIGRTMIN+k` resolves to `rtmin + k` and `SIGRTMAX-k` to `rtmax - k`;
for `k` beyond the range both fail; and any suffix character other than
`+` after `SIGRTMIN` (resp. `-` after `SIGRTMAX`) makes resolution
fail. -/
theorem C4_realtime_offsets (env : Env) (k : Nat) (c : Char)
    (rest : List Char) :
    ((k : Int) ≤ env.rtmax - env.rtmin →
        get_signal_num env ("SIGRTMIN+".data ++ natChars k) =
            .ok (env.rtmin + k)
        ∧ get_signal_num env ("SIGRTMAX-".data ++ natChars k) =
            .ok (env.rtmax - k))
    ∧ (env.rtmax - env.rtmin < (k : Int) →
        isErr (get_signal_num env ("SIGRTMIN+".data ++ natChars k)) = true
        ∧ isErr (get_signal_num env ("SIGRTMAX-".data ++ natChars k)) = true)
    ∧ (c ≠ '+' →
        isErr (get_signal_num env ("SIGRTMIN".data ++ c :: rest)) = true)
    ∧ (c ≠ '-' →
        isErr (get_signal_num env ("SIGRTMAX".data ++ c :: rest)) = true) := by
  have hmin : get_signal_num env ("SIGRTMIN+".data ++ natChars k) =
      match xatoi ('+' :: natChars k) with
      | .error e => .error e
      | .ok adj =>
        if env.rtmax - env.rtmin < adj then
          .error "SIGRTMIN offset exceeds range".data
        else .ok (env.rtmin + adj) := rfl
  have hmax : get_signal_num env ("SIGRTMAX-".data ++ natChars k) =
      match xatoi ('-' :: natChars k) with
      | .error e => .error e
      | .ok adj =>
        if adj < -(env.rtmax - env.rtmin) then
          .error "SIGRTMAX offset exceeds range".data
        else .ok (env.rtmax + adj) := rfl
  have hxp := xatoi_plus_digits (natChars k) (natChars_ne_nil k)
    (natChars_all_digits k)
  have hxm := xatoi_minus_digits (natChars k) (natChars_ne_nil k)
    (natChars_all_digits k)
  rw [digitsVal_natChars] at hxp hxm
  refine ⟨?_, ?_, ?_, ?_⟩
  · intro hk
    refine ⟨?_, ?_⟩
    · simp only [hmin, hxp]
      rw [if_neg (by omega)]
    · simp only [hmax, hxm]
      rw [if_neg (by omega)]
      have harith : env.rtmax + -(k : Int) = env.rtmax - k := by ring
      rw [harith]
  · intro hk
    refine ⟨?_, ?_⟩
    · simp only [hmin, hxp]
      rw [if_pos (by omega)]
      rfl
    · simp only [hmax, hxm]
      rw [if_pos (by omega)]
      rfl
  · intro hc
    have hsh : get_signal_num env ("SIGRTMIN".data ++ c :: rest) =
        if c = '+' then
          (match xatoi (c :: rest) with
           | .error e => .error e
           | .ok adj =>
             if env.rtmax - env.rtmin < adj then
               .error "SIGRTMIN offset exceeds range".data
             else .ok (env.rtmin + adj))
        else .error "must be SIGRTMIN or SIGRTMIN+<number>".data := rfl
    rw [hsh, if_neg hc]
    rfl
  · intro hc
    have hsh : get_signal_num env ("SIGRTMAX".data ++ c :: rest) =
        if c = '-' then
          (match xatoi (c :: rest) with
           | .error e => .error e
           | .ok adj =>
             if adj < -(env.rtmax - env.rtmin) then
               .error "SIGRTMAX offset exceeds range".data
             else .ok (env.rtmax + adj))
        else .error "must be SIGRTMAX or SIGRTMAX-<number>".data := rfl
    rw [hsh, if_neg hc]
    rfl

theorem C4_realtime_offsets_witness :
    get_signal_num linuxEnv ("SIGRTMIN+".data ++ natChars 3) = .ok 37
    ∧ get_signal_num linuxEnv ("SIGRTMAX-".data ++ natChars 3) = .ok 61
    ∧ isErr (get_signal_num linuxEnv ("SIGRTMIN+".data ++ natChars 31)) = true
    ∧ isErr (get_signal_num linuxEnv ("SIGRTMIN".data ++ '-' :: ['1'])) = true
    ∧ isErr (get_signal_num linuxEnv ("SIGRTMAX".data ++ '+' :: ['1'])) = true :=
  ⟨(((C4_realtime_offsets linuxEnv 3 '-' ['1']).1 (by decide)).1).trans
      (by decide),
   (((C4_realtime_offsets linuxEnv 3 '-' ['1']).1 (by decide)).2).trans
      (by decide),
   ((C4_realtime_offsets linuxEnv 31 '-' ['1']).2.1 (by decide)).1,
   (C4_realtime_offsets linuxEnv 31 '-' ['1']).2.2.1 (by decide),
   (C4_realtime_offsets linuxEnv 31 '+' ['1']).2.2.2 (by decide)⟩

/-- C5 counterexample: the interior realtime signal 63 (with
`SIGRTMIN = 34`, `SIGRTMAX = 64`) is one below `SIGRTMAX`, so the
claimed nearer-bound representation would be `SIGRTMAX-1` (and even the
MIN-relative offset form would be `SIGRTMIN+29`), but the code prints
the absolute signal number after `SIGRTMIN+`: it returns
`"SIGRTMIN+63"`. -/
theorem C5_counterexample :
    strsigname linuxEnv 63 = "SIGRTMIN+63".data
    ∧ strsigname linuxEnv 63 ≠ "SIGRTMAX-1".data
    ∧ strsigname linuxEnv 63 ≠ "SIGRTMIN+29".data := by
  decide

/-- C5 amended: reverse lookup returns the name of a catalog entry
whose number matches (with list priority, e.g. 6 is `SIGABRT` not
`SIGIOT`, 29 is `SIGIO` not `SIGPOLL`); failing that it returns
`SIGRTMIN`/`SIGRTMAX` at the exact bounds; for interior realtime values
it returns `"SIGRTMIN+"` followed by the decimal rendering of the
signal number itself (always MIN-relative, printing the absolute number
rather than an offset); otherwise the placeholder `SIG???`. -/
theorem C5_reverse_lookup (env : Env) (n : Int) :
    (∀ p : SigPair, p ∈ signals → p.value = n →
        ∃ q : SigPair, q ∈ signals ∧ q.value = n ∧
          strsigname env n = q.name.data)
    ∧ strsigname env 6 = "SIGABRT".data
    ∧ strsigname env 29 = "SIGIO".data
    ∧ ((∀ p ∈ signals, p.value ≠ n) → n = env.rtmin →
        strsigname env n = "SIGRTMIN".data)
    ∧ ((∀ p ∈ signals, p.value ≠ n) → n ≠ env.rtmin → n = env.rtmax →
        strsigname env n = "SIGRTMAX".data)
    ∧ ((∀ p ∈ signals, p.value ≠ n) → env.rtmin < n → n < env.rtmax →
        strsigname env n = "SIGRTMIN+".data ++ natChars n.toNat)
    ∧ ((∀ p ∈ signals, p.value ≠ n) → n ≠ env.rtmin → n ≠ env.rtmax →
        ¬(env.rtmin < n ∧ n < env.rtmax) →
        strsigname env n = "SIG???".data) := by
  have hfnone : (∀ p ∈ signals, p.value ≠ n) →
      signals.find? (fun q => q.value == n) = none := by
    intro h
    exact List.find?_eq_none.mpr (fun p hp => by simp [h p hp])
  refine ⟨?_, rfl, rfl, ?_, ?_, ?_, ?_⟩
  · intro p hp hv
    cases hf : signals.find? (fun q => q.value == n) with
    | none =>
      exact absurd (by simp [hv]) (List.find?_eq_none.mp hf p hp)
    | some q =>
      refine ⟨q, List.mem_of_find?_eq_some hf, ?_, ?_⟩
      · have := List.find?_some hf
        simpa using this
      · simp only [strsigname, hf]
  · intro h hn
    simp only [strsigname, hfnone h]
    rw [if_pos hn]
  · intro h hn1 hn2
    simp only [strsigname, hfnone h]
    rw [if_neg hn1, if_pos hn2]
  · intro h h1 h2
    simp only [strsigname, hfnone h]
    rw [if_neg (by omega), if_neg (by omega), if_pos ⟨h1, h2⟩]
  · intro h h1 h2 h3
    simp only [strsigname, hfnone h]
    rw [if_neg h1, if_neg h2, if_neg h3]

theorem C5_reverse_lookup_witness :
    strsigname linuxEnv 40 = "SIGRTMIN+40".data
    ∧ strsigname linuxEnv 34 = "SIGRTMIN".data
    ∧ strsigname linuxEnv 32 = "SIG???".data :=
  ⟨((C5_reverse_lookup linuxEnv 40).2.2.2.2.2.1 (by decide) (by decide)
      (by decide)).trans (by decide),
   (C5_reverse_lookup linuxEnv 34).2.2.2.1 (by decide) (by decide),
   (C5_reverse_lookup linuxEnv 32).2.2.2.2.2.2 (by decide) (by decide)
      (by decide) (by decide)⟩

/-! ## Shape lemmas for arbitrary resolver inputs (claim C3) -/

theorem all_of_takeWhile {p : Char → Bool} :
    ∀ (l : List Char), (l.takeWhile p).all p = true := by
  intro l
  induction l with
  | nil => rfl
  | cons c cs ih =>
    rw [List.takeWhile_cons]
    by_cases hc : p c = true
    · rw [if_pos hc]
      simp [hc, ih]
    · rw [if_neg hc]
      rfl

theorem drop_takeWhile_length {p : Char → Bool} (l : List Char) :
    l.drop (l.takeWhile p).length = l.dropWhile p := by
  induction l with
  | nil => rfl
  | cons c cs ih =>
    rw [List.takeWhile_cons, List.dropWhile_cons]
    by_cases hc : p c = true
    · rw [if_pos hc, if_pos hc]
      simp only [List.length_cons, List.drop_succ_cons]
      exact ih
    · rw [if_neg hc, if_neg hc]
      rfl

theorem leadsWith_append (p x : List Char) : leadsWith p (p ++ x) = true := by
  induction p with
  | nil => simp [leadsWith]
  | cons c cs ih => simp [leadsWith, ih]

theorem eq_append_drop_of_leadsWith :
    ∀ (p s : List Char), leadsWith p s = true → s = p ++ s.drop p.length := by
  intro p
  induction p with
  | nil => simp [leadsWith]
  | cons c cs ih =>
    intro s h
    cases s with
    | nil => exact absurd h (by simp [leadsWith])
    | cons a as =>
      rw [leadsWith, Bool.and_eq_true, beq_iff_eq] at h
      obtain ⟨rfl, h2⟩ := h
      have := ih as h2
      simp only [List.length_cons, List.drop_succ_cons, List.cons_append]
      exact congrArg _ this

/-- Every successful `strtol`-conversion that consumed the whole
nonempty input decomposes it as whitespace, an optional sign, and a
nonempty digit run. -/
theorem strtol10_shape (s : List Char) (v : Int) (hok : strtol10 s = (v, []))
    (hne : s ≠ []) :
    ∃ w g ds, s = w ++ g ++ ds ∧ w.all isSpaceC = true ∧
      (g = [] ∨ g = ['+'] ∨ g = ['-']) ∧ ds ≠ [] ∧ ds.all isDigitC = true ∧
      v = sgnOf g * digitsVal ds := by
  have hs := (List.takeWhile_append_dropWhile (p := isSpaceC) (l := s)).symm
  have hwall : (s.takeWhile isSpaceC).all isSpaceC = true := all_of_takeWhile s
  rcases htc : s.dropWhile isSpaceC with _ | ⟨c, r⟩
  · have hc : strtol10 s = (0, s) := by
      simp [strtol10, htc, signSplit]
    rw [hc, Prod.mk.injEq] at hok
    exact absurd hok.2 hne
  · rw [htc] at hs
    by_cases hcp : c = '+'
    · subst hcp
      by_cases hde : r.takeWhile isDigitC = []
      · have hc : strtol10 s = (0, s) := by
          simp [strtol10, htc, signSplit, hde]
        rw [hc, Prod.mk.injEq] at hok
        exact absurd hok.2 hne
      · have hc : strtol10 s =
            (1 * digitsVal (r.takeWhile isDigitC),
              r.drop (r.takeWhile isDigitC).length) := by
          simp [strtol10, htc, signSplit, hde]
        rw [hc, Prod.mk.injEq] at hok
        obtain ⟨hv, hrest⟩ := hok
        rw [drop_takeWhile_length] at hrest
        have hreq : r = r.takeWhile isDigitC := by
          conv_lhs => rw [← List.takeWhile_append_dropWhile (p := isDigitC) (l := r)]
          rw [hrest, List.append_nil]
        refine ⟨s.takeWhile isSpaceC, ['+'], r, ?_, hwall,
          Or.inr (Or.inl rfl), ?_, ?_, ?_⟩
        · conv_lhs => rw [hs]
          simp
        · intro h0; rw [h0] at hde; exact hde rfl
        · rw [hreq]; exact all_of_takeWhile r
        · rw [← hv, ← hreq]
          simp [sgnOf]
    · by_cases hcm : c = '-'
      · subst hcm
        by_cases hde : r.takeWhile isDigitC = []
        · have hc : strtol10 s = (0, s) := by
            simp [strtol10, htc, signSplit, hde]
          rw [hc, Prod.mk.injEq] at hok
          exact absurd hok.2 hne
        · have hc : strtol10 s =
              (-1 * digitsVal (r.takeWhile isDigitC),
                r.drop (r.takeWhile isDigitC).length) := by
            simp [strtol10, htc, signSplit, hde]
          rw [hc, Prod.mk.injEq] at hok
          obtain ⟨hv, hrest⟩ := hok
          rw [drop_takeWhile_length] at hrest
          have hreq : r = r.takeWhile isDigitC := by
            conv_lhs => rw [← List.takeWhile_append_dropWhile (p := isDigitC) (l := r)]
            rw [hrest, List.append_nil]
          refine ⟨s.takeWhile isSpaceC, ['-'], r, ?_, hwall,
            Or.inr (Or.inr rfl), ?_, ?_, ?_⟩
          · conv_lhs => rw [hs]
            simp
          · intro h0; rw [h0] at hde; exact hde rfl
          · rw [hreq]; exact all_of_takeWhile r
          · rw [← hv, ← hreq]
            simp [sgnOf]
      · by_cases hde : (c :: r).takeWhile isDigitC = []
        · have hc : strtol10 s = (0, s) := by
            simp [strtol10, htc, signSplit, hcp, hcm, hde]
          rw [hc, Prod.mk.injEq] at hok
          exact absurd hok.2 hne
        · have hc : strtol10 s =
              (1 * digitsVal ((c :: r).takeWhile isDigitC),
                (c :: r).drop ((c :: r).takeWhile isDigitC).length) := by
            simp [strtol10, htc, signSplit, hcp, hcm, hde]
          rw [hc, Prod.mk.injEq] at hok
          obtain ⟨hv, hrest⟩ := hok
          rw [drop_takeWhile_length] at hrest
          have hreq : c :: r = (c :: r).takeWhile isDigitC := by
            conv_lhs => rw [← List.takeWhile_append_dropWhile (p := isDigitC) (l := c :: r)]
            rw [hrest, List.append_nil]
          refine ⟨s.takeWhile isSpaceC, [], c :: r, ?_, hwall,
            Or.inl rfl, by simp, ?_, ?_⟩
          · conv_lhs => rw [hs]
            simp
          · rw [hreq]; exact all_of_takeWhile (c :: r)
          · rw [← hv, ← hreq]
            simp [sgnOf]

/-- A successful `xatoi` means the input was empty (value 0) or had the
whitespace/sign/digits shape with the value computed from it. -/
theorem xatoi_ok_shape (s : List Char) (v : Int) (h : xatoi s = .ok v) :
    (s = [] ∧ v = 0) ∨
    (∃ w g ds, s = w ++ g ++ ds ∧ w.all isSpaceC = true ∧
      (g = [] ∨ g = ['+'] ∨ g = ['-']) ∧ ds ≠ [] ∧ ds.all isDigitC = true ∧
      v = sgnOf g * digitsVal ds) := by
  cases s with
  | nil =>
    left
    exact ⟨rfl, (Except.ok.inj h).symm⟩
  | cons a as =>
    right
    cases hr : (strtol10 (a :: as)).2 with
    | cons b bs =>
      exfalso
      have hx : xatoi (a :: as) =
          .error ("error: could not decode: ".data ++ (a :: as)) := by
        simp [xatoi, hr]
      rw [hx] at h
      exact Except.noConfusion h
    | nil =>
      have hx : xatoi (a :: as) = .ok (strtol10 (a :: as)).1 := by
        simp [xatoi, hr]
      rw [hx] at h
      have hok : strtol10 (a :: as) = (v, []) :=
        Prod.ext (Except.ok.inj h) hr
      exact strtol10_shape _ v hok (by simp)

/-- A successful `xatoi` on a string that starts with `+` forces the
remainder to be a nonempty digit run and gives its value. -/
theorem xatoi_plus_shape (r : List Char) (adj : Int)
    (h : xatoi ('+' :: r) = .ok adj) :
    r ≠ [] ∧ r.all isDigitC = true ∧ adj = digitsVal r := by
  rcases xatoi_ok_shape _ _ h with ⟨hnil, -⟩ | ⟨w, g, ds, heq, hw, hg, hne, hds, hv⟩
  · exact absurd hnil (by simp)
  · cases w with
    | cons c' w' =>
      exfalso
      rw [List.cons_append, List.cons_append] at heq
      injection heq with h1 _
      rw [List.all_cons, Bool.and_eq_true] at hw
      rw [← h1] at hw
      exact absurd hw.1 (by decide)
    | nil =>
      rw [List.nil_append] at heq
      rcases hg with rfl | rfl | rfl
      · exfalso
        rw [List.nil_append] at heq
        rw [← heq, List.all_cons, Bool.and_eq_true] at hds
        exact absurd hds.1 (by decide)
      · rw [List.singleton_append] at heq
        injection heq with _ h2
        subst h2
        refine ⟨hne, hds, ?_⟩
        rw [hv, sgnOf, if_neg (by simp)]
        ring
      · exfalso
        rw [List.singleton_append] at heq
        injection heq with h1 _
        exact absurd h1 (by decide)

/-- A successful `xatoi` on a string that starts with `-` forces the
remainder to be a nonempty digit run and gives its negated value. -/
theorem xatoi_minus_shape (r : List Char) (adj : Int)
    (h : xatoi ('-' :: r) = .ok adj) :
    r ≠ [] ∧ r.all isDigitC = true ∧ adj = -digitsVal r := by
  rcases xatoi_ok_shape _ _ h with ⟨hnil, -⟩ | ⟨w, g, ds, heq, hw, hg, hne, hds, hv⟩
  · exact absurd hnil (by simp)
  · cases w with
    | cons c' w' =>
      exfalso
      rw [List.cons_append, List.cons_append] at heq
      injection heq with h1 _
      rw [List.all_cons, Bool.and_eq_true] at hw
      rw [← h1] at hw
      exact absurd hw.1 (by decide)
    | nil =>
      rw [List.nil_append] at heq
      rcases hg with rfl | rfl | rfl
      · exfalso
        rw [List.nil_append] at heq
        rw [← heq, List.all_cons, Bool.and_eq_true] at hds
        exact absurd hds.1 (by decide)
      · exfalso
        rw [List.singleton_append] at heq
        injection heq with h1 _
        exact absurd h1 (by decide)
      · rw [List.singleton_append] at heq
        injection heq with _ h2
        subst h2
        refine ⟨hne, hds, ?_⟩
        rw [hv, sgnOf, if_pos rfl]
        ring

theorem claimRT_min_plus (env : Env) (s r : List Char)
    (hts : (if leadsWith "SIG".data s then s else "SIG".data ++ s) =
      "SIGRTMIN+".data ++ r)
    (hr : r ≠ []) (hall : r.all isDigitC = true)
    (hle : digitsVal r ≤ env.rtmax - env.rtmin) : claimRT env s = true := by
  have h9 : ("SIGRTMIN+".data ++ r).drop 9 = r := List.drop_left "SIGRTMIN+".data r
  have hremp : r.isEmpty = false := by
    cases r
    · exact absurd rfl hr
    · rfl
  simp only [claimRT, hts, h9, allDigitsB, hremp, leadsWith_append, hall,
    Bool.not_false, Bool.and_true, Bool.true_and, Bool.and_self,
    decide_eq_true hle, Bool.or_true, Bool.true_or]

theorem claimRT_max_minus (env : Env) (s r : List Char)
    (hts : (if leadsWith "SIG".data s then s else "SIG".data ++ s) =
      "SIGRTMAX-".data ++ r)
    (hr : r ≠ []) (hall : r.all isDigitC = true)
    (hle : digitsVal r ≤ env.rtmax - env.rtmin) : claimRT env s = true := by
  have h9 : ("SIGRTMAX-".data ++ r).drop 9 = r := List.drop_left "SIGRTMAX-".data r
  have hremp : r.isEmpty = false := by
    cases r
    · exact absurd rfl hr
    · rfl
  simp only [claimRT, hts, h9, allDigitsB, hremp, leadsWith_append, hall,
    Bool.not_false, Bool.and_true, Bool.true_and, Bool.and_self,
    decide_eq_true hle, Bool.or_true, Bool.true_or]

/-- Packaging: a realtime `SIGRTMIN+` success is amended-accepted. -/
theorem accepted_min_form (env : Env) (s r : List Char) (adj : Int)
    (hts : (if leadsWith "SIG".data s then s else "SIG".data ++ s) =
      "SIGRTMIN+".data ++ r)
    (hx : xatoi ('+' :: r) = .ok adj)
    (hle : ¬(env.rtmax - env.rtmin < adj)) : AmendedAccepted env s := by
  obtain ⟨hr, hall, hv⟩ := xatoi_plus_shape r adj hx
  right; right; left
  exact claimRT_min_plus env s r hts hr hall (by omega)

/-- Packaging: a realtime `SIGRTMAX-` success is amended-accepted. -/
theorem accepted_max_form (env : Env) (s r : List Char) (adj : Int)
    (hts : (if leadsWith "SIG".data s then s else "SIG".data ++ s) =
      "SIGRTMAX-".data ++ r)
    (hx : xatoi ('-' :: r) = .ok adj)
    (hle : ¬(adj < -(env.rtmax - env.rtmin))) : AmendedAccepted env s := by
  obtain ⟨hr, hall, hv⟩ := xatoi_minus_shape r adj hx
  right; right; left
  exact claimRT_max_minus env s r hts hr hall (by omega)

/-- Any input the resolver accepts falls into one of the amended
categories: empty string, catalog name, realtime form, or
`strtol`-style numeric. -/
theorem get_ok_accepted (env : Env) (s : List Char) (v : Int)
    (h : get_signal_num env s = .ok v) : AmendedAccepted env s := by
  by_cases hsig : leadsWith "SIG".data s = true
  · -- off = 0: the input carries its own SIG prefix
    by_cases hmin : leadsWith "SIGRTMIN".data s = true
    · have hdec : s = "SIGRTMIN".data ++ s.drop 8 :=
        eq_append_drop_of_leadsWith "SIGRTMIN".data s hmin
      cases hd : s.drop 8 with
      | nil =>
        rw [hd, List.append_nil] at hdec
        right; right; left
        rw [hdec]
        rfl
      | cons c r =>
        rw [hd] at hdec
        rw [hdec] at h ⊢
        have hshape : get_signal_num env ("SIGRTMIN".data ++ c :: r) =
            if c = '+' then
              (match xatoi (c :: r) with
               | .error e => .error e
               | .ok adj =>
                 if env.rtmax - env.rtmin < adj then
                   .error "SIGRTMIN offset exceeds range".data
                 else .ok (env.rtmin + adj))
            else .error "must be SIGRTMIN or SIGRTMIN+<number>".data := rfl
        rw [hshape] at h
        by_cases hcp : c = '+'
        · subst hcp
          rw [if_pos rfl] at h
          cases hx : xatoi ('+' :: r) with
          | error e =>
            rw [hx] at h
            exact Except.noConfusion h
          | ok adj =>
            simp only [hx] at h
            by_cases hguard : env.rtmax - env.rtmin < adj
            · rw [if_pos hguard] at h
              exact Except.noConfusion h
            · exact accepted_min_form env _ r adj rfl hx hguard
        · rw [if_neg hcp] at h
          exact Except.noConfusion h
    · by_cases hmax : leadsWith "SIGRTMAX".data s = true
      · have hdec : s = "SIGRTMAX".data ++ s.drop 8 :=
          eq_append_drop_of_leadsWith "SIGRTMAX".data s hmax
        cases hd : s.drop 8 with
        | nil =>
          rw [hd, List.append_nil] at hdec
          right; right; left
          rw [hdec]
          rfl
        | cons c r =>
          rw [hd] at hdec
          rw [hdec] at h ⊢
          have hshape : get_signal_num env ("SIGRTMAX".data ++ c :: r) =
              if c = '-' then
                (match xatoi (c :: r) with
                 | .error e => .error e
                 | .ok adj =>
                   if adj < -(env.rtmax - env.rtmin) then
                     .error "SIGRTMAX offset exceeds range".data
                   else .ok (env.rtmax + adj))
              else .error "must be SIGRTMAX or SIGRTMAX-<number>".data := rfl
          rw [hshape] at h
          by_cases hcm : c = '-'
          · subst hcm
            rw [if_pos rfl] at h
            cases hx : xatoi ('-' :: r) with
            | error e =>
              rw [hx] at h
              exact Except.noConfusion h
            | ok adj =>
              simp only [hx] at h
              by_cases hguard : adj < -(env.rtmax - env.rtmin)
              · rw [if_pos hguard] at h
                exact Except.noConfusion h
              · exact accepted_max_form env _ r adj rfl hx hguard
          · rw [if_neg hcm] at h
            exact Except.noConfusion h
      · cases hf : signals.find? (fun p => p.name.data == s) with
        | some p =>
          have hmem := List.mem_of_find?_eq_some hf
          have hps := List.find?_some hf
          right; left
          rw [isCatalogName, List.any_eq_true]
          refine ⟨p, hmem, ?_⟩
          rw [Bool.or_eq_true]
          exact Or.inl hps
        | none =>
          have hoff : (if leadsWith "SIG".data s then (0 : Nat) else 3) = 0 :=
            if_pos hsig
          have hns : get_signal_num env s =
              match xatoi s with
              | .error e => .error e
              | .ok signum =>
                if signum < 0 then
                  .error ("only positive integers are allowed: ".data ++ s)
                else if get_sigmax env < signum then
                  .error "signals greater than the maximum are not supported".data
                else .ok signum := by
            simp only [get_signal_num, hoff, List.drop_zero, Nat.sub_zero, hf]
            rw [if_neg hmin, if_neg hmax]
          rw [hns] at h
          cases hx : xatoi s with
          | error e =>
            rw [hx] at h
            exact Except.noConfusion h
          | ok signum =>
            simp only [hx] at h
            by_cases hneg : signum < 0
            · rw [if_pos hneg] at h
              exact Except.noConfusion h
            · rw [if_neg hneg] at h
              by_cases hbig : get_sigmax env < signum
              · rw [if_pos hbig] at h
                exact Except.noConfusion h
              · rcases xatoi_ok_shape s signum hx with ⟨heq0, -⟩ |
                  ⟨w, g, ds, heq, hw, hg, hne, hds, hval⟩
                · left; exact heq0
                · right; right; right
                  exact ⟨w, g, ds, heq, hw, hg, hne, hds, by omega, by omega⟩
  · -- off = 3: the SIG prefix is stripped from the catalog names
    by_cases hmin : leadsWith "RTMIN".data s = true
    · have hdec : s = "RTMIN".data ++ s.drop 5 :=
        eq_append_drop_of_leadsWith "RTMIN".data s hmin
      cases hd : s.drop 5 with
      | nil =>
        rw [hd, List.append_nil] at hdec
        right; right; left
        rw [hdec]
        rfl
      | cons c r =>
        rw [hd] at hdec
        rw [hdec] at h ⊢
        have hshape : get_signal_num env ("RTMIN".data ++ c :: r) =
            if c = '+' then
              (match xatoi (c :: r) with
               | .error e => .error e
               | .ok adj =>
                 if env.rtmax - env.rtmin < adj then
                   .error "SIGRTMIN offset exceeds range".data
                 else .ok (env.rtmin + adj))
            else .error "must be SIGRTMIN or SIGRTMIN+<number>".data := rfl
        rw [hshape] at h
        by_cases hcp : c = '+'
        · subst hcp
          rw [if_pos rfl] at h
          cases hx : xatoi ('+' :: r) with
          | error e =>
            rw [hx] at h
            exact Except.noConfusion h
          | ok adj =>
            simp only [hx] at h
            by_cases hguard : env.rtmax - env.rtmin < adj
            · rw [if_pos hguard] at h
              exact Except.noConfusion h
            · exact accepted_min_form env _ r adj rfl hx hguard
        · rw [if_neg hcp] at h
          exact Except.noConfusion h
    · by_cases hmax : leadsWith "RTMAX".data s = true
      · have hdec : s = "RTMAX".data ++ s.drop 5 :=
          eq_append_drop_of_leadsWith "RTMAX".data s hmax
        cases hd : s.drop 5 with
        | nil =>
          rw [hd, List.append_nil] at hdec
          right; right; left
          rw [hdec]
          rfl
        | cons c r =>
          rw [hd] at hdec
          rw [hdec] at h ⊢
          have hshape : get_signal_num env ("RTMAX".data ++ c :: r) =
              if c = '-' then
                (match xatoi (c :: r) with
                 | .error e => .error e
                 | .ok adj =>
                   if adj < -(env.rtmax - env.rtmin) then
                     .error "SIGRTMAX offset exceeds range".data
                   else .ok (env.rtmax + adj))
              else .error "must be SIGRTMAX or SIGRTMAX-<number>".data := rfl
          rw [hshape] at h
          by_cases hcm : c = '-'
          · subst hcm
            rw [if_pos rfl] at h
            cases hx : xatoi ('-' :: r) with
            | error e =>
              rw [hx] at h
              exact Except.noConfusion h
            | ok adj =>
              simp only [hx] at h
              by_cases hguard : adj < -(env.rtmax - env.rtmin)
              · rw [if_pos hguard] at h
                exact Except.noConfusion h
              · exact accepted_max_form env _ r adj rfl hx hguard
          · rw [if_neg hcm] at h
            exact Except.noConfusion h
      · cases hf : signals.find? (fun p => p.name.data.drop 3 == s) with
        | some p =>
          have hmem := List.mem_of_find?_eq_some hf
          have hps := List.find?_some hf
          right; left
          rw [isCatalogName, List.any_eq_true]
          refine ⟨p, hmem, ?_⟩
          rw [Bool.or_eq_true]
          exact Or.inr hps
        | none =>
          have hoff : (if leadsWith "SIG".data s then (0 : Nat) else 3) = 3 :=
            if_neg hsig
          have e5min : "SIGRTMIN".data.drop 3 = "RTMIN".data := rfl
          have e5max : "SIGRTMAX".data.drop 3 = "RTMAX".data := rfl
          have e83 : (8 - 3 : Nat) = 5 := rfl
          have hns : get_signal_num env s =
              match xatoi s with
              | .error e => .error e
              | .ok signum =>
                if signum < 0 then
                  .error ("only positive integers are allowed: ".data ++ s)
                else if get_sigmax env < signum then
                  .error "signals greater than the maximum are not supported".data
                else .ok signum := by
            simp only [get_signal_num, hoff, e5min, e5max, e83, hf]
            rw [if_neg hmin, if_neg hmax]
          rw [hns] at h
          cases hx : xatoi s with
          | error e =>
            rw [hx] at h
            exact Except.noConfusion h
          | ok signum =>
            simp only [hx] at h
            by_cases hneg : signum < 0
            · rw [if_pos hneg] at h
              exact Except.noConfusion h
            · rw [if_neg hneg] at h
              by_cases hbig : get_sigmax env < signum
              · rw [if_pos hbig] at h
                exact Except.noConfusion h
              · rcases xatoi_ok_shape s signum hx with ⟨heq0, -⟩ |
                  ⟨w, g, ds, heq, hw, hg, hne, hds, hval⟩
                · left; exact heq0
                · right; right; right
                  exact ⟨w, g, ds, heq, hw, hg, hne, hds, by omega, by omega⟩

/-- C3 counterexample: the empty string is none of the claim's accepted
categories (not a catalog name, not a realtime form, not a complete
non-negative integer), yet the resolver accepts it and returns signal
number 0 — `strtol("")` performs no conversion, and `xatoi` only flags
an error for nonempty inputs. -/
theorem C3_empty_string_accepted :
    claimAccepted linuxEnv [] = false
    ∧ get_signal_num linuxEnv [] = .ok 0 :=
  ⟨by decide, rfl⟩

/-- C3 amended: every input that is not empty, not a catalog name
(with optional SIG prefix), not a well-formed in-range realtime form,
and not a `strtol`-style numeric string (optional leading whitespace,
optional sign, digits to the end, value within `[0, sigmax]`) fails
resolution. -/
theorem C3_invalid_specs_rejected (env : Env) (s : List Char)
    (h : ¬ AmendedAccepted env s) : isErr (get_signal_num env s) = true := by
  cases hg : get_signal_num env s with
  | error e => rfl
  | ok v => exact absurd (get_ok_accepted env s v hg) h

theorem C3_invalid_specs_rejected_witness :
    isErr (get_signal_num linuxEnv "zzz".data) = true :=
  C3_invalid_specs_rejected linuxEnv "zzz".data (by
    rintro (h | h | h | ⟨w, g, ds, heq, hw, hgg, hne, hds, -, -⟩)
    · exact absurd h (by decide)
    · exact absurd h (by decide)
    · exact absurd h (by decide)
    · obtain ⟨d, hd⟩ := List.exists_mem_of_ne_nil ds hne
      have hmem : d ∈ "zzz".data := by
        rw [heq]
        simp [hd]
      have hdig : isDigitC d = true := List.all_eq_true.mp hds d hd
      have hz : d = 'z' := by
        have : d ∈ ['z', 'z', 'z'] := hmem
        simp at this
        exact this
      rw [hz] at hdig
      exact absurd hdig (by decide))

example : get_signal_num linuxEnv "SIGTERM".data = .ok 15 := by decide
example : get_signal_num linuxEnv "TERM".data = .ok 15 := by decide
example : get_signal_num linuxEnv "0".data = .ok 0 := by decide
example : get_signal_num linuxEnv "".data = .ok 0 := by decide
example : get_signal_num linuxEnv "SIGRTMIN+3".data = .ok 37 := by decide
example : get_signal_num linuxEnv "RTMAX-2".data = .ok 62 := by decide
example : get_signal_num linuxEnv "SIGRTMIN-1".data =
    .error "must be SIGRTMIN or SIGRTMIN+<number>".data := by decide
example : get_signal_num linuxEnv "0x1".data =
    .error ("error: could not decode: ".data ++ "0x1".data) := by decide
example : get_signal_num linuxEnv "-1".data =
    .error ("only positive integers are allowed: ".data ++ "-1".data) := by decide
example : strsigname linuxEnv 35 = "SIGRTMIN+35".data := by decide
example : strsigname linuxEnv 15 = "SIGTERM".data := by decide
example : strsigname linuxEnv 32 = "SIG???".data := by decide

end Nosig
